import Mathlib

/-!
Shallow embedding of the content-fabric video pipeline core
(`src/core/cpp/video/src`): the JSON job-configuration model, the Job
Builder (`JobManager`), the operation registry (`VideoPipelineEngine::
buildOperations`), the engine's frame loop (`VideoPipelineEngine::
processFrames`), the engine run / batch loop, the `SubtitleRemoveOperation`
hook, and the `WatermarkRemoveOperation` region arithmetic.

C++ exceptions are modelled with `Except String`; the external
collaborators (ffmpeg open/decode, OpenCV kernels, TTS) are modelled at
their interface boundary exactly as the repository's adapter stubs behave.
-/

namespace ContentFabric

/-! ## JSON model (nlohmann::json as used by the repository) -/

/-- A JSON document; numbers are modelled as integers (the repository only
reads integral region coordinates and strings). -/
inductive Json where
  | null
  | bool (b : Bool)
  | num (n : Int)
  | str (s : String)
  | arr (xs : List Json)
  | obj (fields : List (String × Json))

/-- First binding of a key in an object's field list. -/
def findField : List (String × Json) → String → Option Json
  | [], _ => none
  | (k', v) :: rest, k => if k' = k then some v else findField rest k

/-- `j.find(key)` on an object; `none` on non-objects. -/
def Json.find? : Json → String → Option Json
  | .obj fs, k => findField fs k
  | _, _ => none

/-- `j.contains(key)`: true only for objects holding the key. -/
def Json.containsKey (j : Json) (k : String) : Bool :=
  (j.find? k).isSome

def Json.isObject : Json → Bool
  | .obj _ => true
  | _ => false

/-- nlohmann range-`for` over a json value: arrays iterate elements,
objects iterate mapped values, `null` is empty, any other value iterates
itself once. -/
def Json.elements : Json → List Json
  | .arr xs => xs
  | .obj fs => fs.map (·.2)
  | .null => []
  | j => [j]

/-- `j.at(key)`: throws `out_of_range` on a missing key and `type_error`
on a non-object. -/
def Json.atKey : Json → String → Except String Json
  | .obj fs, k =>
    match findField fs k with
    | some v => .ok v
    | none => .error ("json out_of_range: key not found: " ++ k)
  | _, k => .error ("json type_error: cannot use at() with key " ++ k)

/-- `j.get<std::string>()`: throws unless the value is a string. -/
def Json.getStr : Json → Except String String
  | .str s => .ok s
  | _ => .error "json type_error: type must be string"

/-- `j.get<int>()`: throws unless the value is a number. -/
def Json.getInt : Json → Except String Int
  | .num n => .ok n
  | _ => .error "json type_error: type must be number"

/-- `j.value(key, default)` at string type: objects return the field
(which must then be a string) or the default; non-objects throw. -/
def Json.valueStr (j : Json) (k : String) (dflt : String) :
    Except String String :=
  match j with
  | .obj fs =>
    match findField fs k with
    | some v => v.getStr
    | none => .ok dflt
  | _ => .error ("json type_error: cannot use value() with key " ++ k)

/-- `j.value(key, default)` at int type. -/
def Json.valueInt (j : Json) (k : String) (dflt : Int) :
    Except String Int :=
  match j with
  | .obj fs =>
    match findField fs k with
    | some v => v.getInt
    | none => .ok dflt
  | _ => .error ("json type_error: cannot use value() with key " ++ k)

/-! ## Job descriptor model (`VideoJob.hpp`) -/

/-- `core::OperationDescriptor`: type tag plus opaque parameter bag. -/
structure OperationDescriptor where
  type : String
  params : Json

/-- `core::VideoJob`. -/
structure VideoJob where
  input : String
  output : String
  operations : List OperationDescriptor

/-- `cli::ProgramOptions` (ArgsParser.hpp). -/
structure ProgramOptions where
  operations : List String
  input : String
  output : String
  configPath : Option String
  subtitleSrcLang : Option String
  subtitleDstLang : Option String
  ttsLang : Option String
  ttsBaseUrl : Option String
  ttsApiKey : Option String

/-! ## Job Builder (`JobManager.cpp`) -/

/-- `JobManager::buildJobFromCli`: one job from CLI options; recognized
operation names synthesize a parameter object, others keep the
default-constructed (null) parameter bag. -/
def buildJobFromCli (opts : ProgramOptions) : VideoJob :=
  let ops := opts.operations.map fun op =>
    let params : Json :=
      if op = "subtitles_translate" then
        .obj [("src_lang", .str (opts.subtitleSrcLang.getD "auto")),
              ("dst_lang", .str (opts.subtitleDstLang.getD "auto"))]
      else if op = "voiceover" then
        .obj [("lang", .str (opts.ttsLang.getD "auto")),
              ("base_url", .str (opts.ttsBaseUrl.getD "")),
              ("api_key", .str (opts.ttsApiKey.getD ""))]
      else .null
    OperationDescriptor.mk op params
  VideoJob.mk opts.input opts.output ops

/-- Sequential effectful map over a list in `Except` (the C++ loop that
pushes elements and lets exceptions escape). -/
def mapExcept (f : α → Except String β) : List α → Except String (List β)
  | [] => .ok []
  | x :: xs => do
    let y ← f x
    let ys ← mapExcept f xs
    pure (y :: ys)

/-- One iteration of the descriptor loop in `JobManager::buildJobFromConfig`:
`desc.type = op.at("type").get<std::string>(); desc.params = op`. -/
def descriptorOfElement (op : Json) : Except String OperationDescriptor := do
  let tJson ← op.atKey "type"
  let t ← tJson.getStr
  pure (OperationDescriptor.mk t op)

/-- `JobManager::buildJobFromConfig`. -/
def buildJobFromConfig (opts : ProgramOptions) (jobCfg : Json) :
    Except String VideoJob := do
  let ops ←
    match jobCfg.find? "operations" with
    | some opsJson => mapExcept descriptorOfElement opsJson.elements
    | none => pure []
  let input ← jobCfg.valueStr "input" opts.input
  let output ← jobCfg.valueStr "output" opts.output
  pure (VideoJob.mk input output ops)

/-- `JobManager::buildJobs`: config-driven building takes priority when a
config path was supplied and the loaded document is an object; otherwise a
single CLI-assembled job. -/
def buildJobs (opts : ProgramOptions) (config : Json) :
    Except String (List VideoJob) :=
  if opts.configPath.isSome ∧ config.isObject then
    match config.find? "jobs" with
    | some jobsJson => mapExcept (buildJobFromConfig opts) jobsJson.elements
    | none => do
      let j ← buildJobFromConfig opts config
      pure [j]
  else .ok [buildJobFromCli opts]

/-! ## Media session model (`VideoContext.hpp`)

The raw libav handles (`inputFormat`, `videoDecoder`, ...) are resources;
their acquisition/release is tracked by the engine-run model further
below.  The fields operations read and write are modelled directly. -/

/-- `core::SubtitleCue`. -/
structure SubtitleCue where
  start_ms : Int
  end_ms : Int
  text : String

/-- `core::SubtitleTrack`. -/
structure SubtitleTrack where
  cues : List SubtitleCue := []
  language : String := ""

/-- `core::AudioData` (sample format omitted; it is never read). -/
structure AudioData where
  bytes : List Nat := []
  sampleRate : Int := 48000
  channels : Int := 2

/-- `core::VideoContext`: the per-job session state shared with every
operation.  Stream indices use the sentinel `-1` for "none". -/
structure VideoContext where
  videoStreamIndex : Int := -1
  audioStreamIndex : Int := -1
  subtitleStreamIndex : Int := -1
  subtitles : SubtitleTrack := {}
  generatedVoiceover : AudioData := {}

/-! ## Watermark regions (`WatermarkRemoveOperation.hpp`) -/

/-- `operations::WatermarkRegion`. -/
structure WatermarkRegion where
  x : Int := 0
  y : Int := 0
  width : Int := 0
  height : Int := 0
  method : String := "blur"

/-! ## Constructed operations (the registry's output)

Each constructor stores exactly the configuration the C++ constructor
derives from the parameter bag. -/

/-- One constructed operation instance (`IVideoOperation` subclasses). -/
inductive Operation where
  | subtitleTranslate (srcLang dstLang : String)
  | subtitleRemove
  | watermarkRemove (regions : List WatermarkRegion)
  | voiceover (lang baseUrl apiKey : String)

/-- One region element of the `"regions"` array in
`WatermarkRemoveOperation`'s constructor. -/
def regionOfJson (r : Json) : Except String WatermarkRegion := do
  let x ← r.valueInt "x" 0
  let y ← r.valueInt "y" 0
  let w ← r.valueInt "width" 0
  let h ← r.valueInt "height" 0
  let m ← r.valueStr "method" "blur"
  pure (WatermarkRegion.mk x y w h m)

/-- The registry: `VideoPipelineEngine::buildOperations`' dispatch on one
descriptor.  `.ok none` is the unknown-type case (warn and skip);
`.error` is a constructor throwing while decoding its parameter bag. -/
def mkOperation (d : OperationDescriptor) : Except String (Option Operation) :=
  if d.type = "subtitles_translate" then do
    let src ← d.params.valueStr "src_lang" "auto"
    let dst ← d.params.valueStr "dst_lang" "auto"
    pure (some (.subtitleTranslate src dst))
  else if d.type = "subtitles_remove" then
    pure (some .subtitleRemove)
  else if d.type = "watermark_remove" then do
    let regions ←
      match d.params.find? "regions" with
      | some rs => mapExcept regionOfJson rs.elements
      | none => pure []
    pure (some (.watermarkRemove regions))
  else if d.type = "voiceover" then do
    let lang ← d.params.valueStr "lang" "auto"
    let baseUrl ← d.params.valueStr "base_url" ""
    let apiKey ← d.params.valueStr "api_key" ""
    pure (some (.voiceover lang baseUrl apiKey))
  else
    pure none

/-- `VideoPipelineEngine::buildOperations`: the constructed chain in
declared order, plus one warning (the offending type tag) per unknown
descriptor. -/
def buildOperations : List OperationDescriptor →
    Except String (List Operation × List String)
  | [] => .ok ([], [])
  | d :: rest => do
    let head ← mkOperation d
    let (ops, warns) ← buildOperations rest
    match head with
    | some op => pure (op :: ops, warns)
    | none => pure (ops, d.type :: warns)

/-! ## Collaborator stubs (adapters), as implemented in the repository -/

/-- `SubtitleAdapter::readSubtitles`: empty when no subtitle stream is
assigned, otherwise the stub dummy track. -/
def readSubtitles (ctx : VideoContext) : SubtitleTrack :=
  if ctx.subtitleStreamIndex < 0 then {}
  else { language := "und",
         cues := [⟨0, 2000, "Hello"⟩, ⟨2500, 4000, "World"⟩] }

/-- `SubtitleAdapter::writeSubtitles` (stub: no session mutation). -/
def writeSubtitles (ctx : VideoContext) : VideoContext := ctx

/-- `SubtitleAdapter::removeSubtitleStream`. -/
def removeSubtitleStream (ctx : VideoContext) : VideoContext :=
  { ctx with subtitleStreamIndex := -1 }

/-- `StubSubtitleTranslator::translate`. -/
def stubTranslate (text _src dst : String) : String :=
  "[" ++ dst ++ "] " ++ text

/-- `TtsClient::synthesize` (stub: 1024 zero bytes, defaults elsewhere). -/
def ttsSynthesize (_subs : SubtitleTrack) (_lang : String) : AudioData :=
  { bytes := List.replicate 1024 0 }

/-- `AudioAdapter::replaceAudio` (stub: logs only, no session mutation). -/
def replaceAudio (ctx : VideoContext) (_audio : AudioData) : VideoContext :=
  ctx

/-! ## Operation lifecycle hooks (`*Operation.cpp`) -/

/-- `prepare(ctx)` of each operation type. -/
def opPrepare : Operation → VideoContext → VideoContext
  | .subtitleTranslate src dst, ctx =>
    let track := readSubtitles ctx
    { ctx with subtitles :=
        { cues := track.cues.map fun c =>
            { c with text := stubTranslate c.text src dst },
          language := dst } }
  | .subtitleRemove, ctx =>
    removeSubtitleStream
      { ctx with subtitles := { ctx.subtitles with cues := [] },
                 subtitleStreamIndex := -1 }
  | .watermarkRemove _, ctx => ctx
  | .voiceover lang _ _, ctx =>
    { ctx with generatedVoiceover := ttsSynthesize ctx.subtitles lang }

/-- A decoded video frame as the engine loop sees it.  Pixel content is
modelled separately (watermark section); the loop itself only reads the
presentation timestamp. -/
structure Frame where
  pts : Int

/-- `processFrame(ctx, frame, pts)` of each operation type.  None of the
four implementations mutates the session; `WatermarkRemoveOperation`
rewrites the frame's pixel plane (modelled in the watermark section) and
leaves its timestamp intact. -/
def opProcessFrame : Operation → VideoContext → Frame → Int →
    VideoContext × Frame
  | .subtitleTranslate _ _, ctx, f, _ => (ctx, f)
  | .subtitleRemove, ctx, f, _ => (ctx, f)
  | .watermarkRemove _, ctx, f, _ => (ctx, f)
  | .voiceover _ _ _, ctx, f, _ => (ctx, f)

/-- `finalize(ctx)` of each operation type. -/
def opFinalize : Operation → VideoContext → VideoContext
  | .subtitleTranslate _ _, ctx => writeSubtitles ctx
  | .subtitleRemove, ctx => ctx
  | .watermarkRemove _, ctx => ctx
  | .voiceover _ _ _, ctx => replaceAudio ctx ctx.generatedVoiceover

/-! ## The frame loop (`VideoPipelineEngine::processFrames`)

The loop is given the packet sequence `av_read_frame` yields for the
input.  Each packet carries its container stream index and the outcome
the decoder collaborator produces for it (`none` models
`decodeFrame` returning a negative code). -/

/-- One input packet together with its decode outcome. -/
structure Packet where
  streamIndex : Int
  decode : Option Frame

/-- Observable engine events, used to state the ordering guarantees.
Operation hooks are identified by their position in the chain. -/
inductive Event where
  | prepare (i : Nat)
  | procFrame (i : Nat) (pts : Int)
  | encode (pts : Int)
  | copyPacket (p : Packet)
  | flush
  | finalize (i : Nat)

/-- The prepare phase: every operation's `prepare`, in chain order,
threading the session. -/
def runPrepare : List Operation → VideoContext → Nat →
    VideoContext × List Event
  | [], ctx, _ => (ctx, [])
  | op :: rest, ctx, i =>
    let ctx' := opPrepare op ctx
    let (ctxF, evs) := runPrepare rest ctx' (i + 1)
    (ctxF, .prepare i :: evs)

/-- The per-frame chain pass: every operation's `processFrame`, in chain
order, on one decoded frame. -/
def runChain : List Operation → VideoContext → Frame → Int → Nat →
    VideoContext × Frame × List Event
  | [], ctx, f, _, _ => (ctx, f, [])
  | op :: rest, ctx, f, pts, i =>
    let (ctx', f') := opProcessFrame op ctx f pts
    let (ctxF, fF, evs) := runChain rest ctx' f' pts (i + 1)
    (ctxF, fF, .procFrame i pts :: evs)

/-- One iteration of the packet loop: dispatch by the session's
stream-role indices.  A video-role packet is decoded and (on success) run
through the chain and encoded; an audio-role packet is copied through;
any other packet is ignored. -/
def packetStep (ops : List Operation) (ctx : VideoContext) (p : Packet) :
    VideoContext × List Event :=
  if p.streamIndex = ctx.videoStreamIndex then
    match p.decode with
    | some f =>
      let pts := f.pts
      let (c2, f2, chainEvs) := runChain ops ctx f pts 0
      (c2, chainEvs ++ [.encode f2.pts])
    | none => (ctx, [])
  else if p.streamIndex = ctx.audioStreamIndex then
    (ctx, [.copyPacket p])
  else (ctx, [])

/-- The packet loop of `processFrames`. -/
def runPackets (ops : List Operation) : VideoContext → List Packet →
    VideoContext × List Event
  | ctx, [] => (ctx, [])
  | ctx, p :: rest =>
    let (ctx', evs) := packetStep ops ctx p
    let (ctxF, evsRest) := runPackets ops ctx' rest
    (ctxF, evs ++ evsRest)

/-- `FfmpegAdapter::flushEncoder` (stub: no session mutation). -/
def flushEncoder (ctx : VideoContext) : VideoContext := ctx

/-- The finalize phase: every operation's `finalize`, in chain order. -/
def runFinalize : List Operation → VideoContext → Nat →
    VideoContext × List Event
  | [], ctx, _ => (ctx, [])
  | op :: rest, ctx, i =>
    let ctx' := opFinalize op ctx
    let (ctxF, evs) := runFinalize rest ctx' (i + 1)
    (ctxF, .finalize i :: evs)

/-- `VideoPipelineEngine::processFrames`: prepare phase, packet loop,
encoder flush, finalize phase. -/
def processFrames (ops : List Operation) (ctx : VideoContext)
    (packets : List Packet) : VideoContext × List Event :=
  let (c1, prepEvs) := runPrepare ops ctx 0
  let (c2, bodyEvs) := runPackets ops c1 packets
  let c3 := flushEncoder c2
  let (c4, finEvs) := runFinalize ops c3 0
  (c4, prepEvs ++ bodyEvs ++ [.flush] ++ finEvs)

/-- The events one packet contributes, as a function of the chain length
and the session's (loop-invariant) video/audio stream indices. -/
def dispatchEvents (n : Nat) (vid aud : Int) (p : Packet) : List Event :=
  if p.streamIndex = vid then
    match p.decode with
    | some f =>
      (List.range n).map (fun i => Event.procFrame i f.pts) ++
        [Event.encode f.pts]
    | none => []
  else if p.streamIndex = aud then [Event.copyPacket p]
  else []

/-! ## Engine run and batch loop (`VideoPipelineEngine::run`,
`JobManager::run`, `main`)

The ffmpeg collaborator's behaviour per path is a `World`: which stream
layout (if any) opening an input yields, whether the output context can
be allocated, and the packet sequence an input produces.  Resource
handling is observed through `RunStats`: whether the input was opened and
how many times `FfmpegAdapter::close` ran. -/

/-- Codec type of one container stream (`codecpar->codec_type`). -/
inductive StreamType where
  | video
  | audio
  | subtitle
  | other

/-- External I/O behaviour for one run. -/
structure World where
  streams : String → Option (List StreamType)
  openOutputOk : String → Bool
  packets : String → List Packet

/-- The stream-role assignment loop in `FfmpegAdapter::openInput`:
first-seen stream of each type wins. -/
def assignRoles : List StreamType → Nat → Int × Int × Int → Int × Int × Int
  | [], _, acc => acc
  | st :: rest, i, (v, a, s) =>
    let acc' :=
      match st with
      | .video => if v < 0 then ((i : Int), a, s) else (v, a, s)
      | .audio => if a < 0 then (v, (i : Int), s) else (v, a, s)
      | .subtitle => if s < 0 then (v, a, (i : Int)) else (v, a, s)
      | .other => (v, a, s)
    assignRoles rest (i + 1) acc'

/-- `FfmpegAdapter::openInput`: throws when the container cannot be
opened, otherwise yields a fresh session with assigned stream roles. -/
def ffOpenInput (w : World) (path : String) : Except String VideoContext :=
  match w.streams path with
  | none => .error ("Failed to open input file: " ++ path)
  | some ss =>
    let (v, a, s) := assignRoles ss 0 (-1, -1, -1)
    .ok { videoStreamIndex := v, audioStreamIndex := a,
          subtitleStreamIndex := s }

/-- `FfmpegAdapter::openOutput`: throws when no output format context can
be allocated. -/
def ffOpenOutput (w : World) (path : String) : Except String Unit :=
  if w.openOutputOk path then .ok ()
  else .error "Failed to create output format context"

/-- Resource observations for one engine run. -/
structure RunStats where
  inputOpened : Bool
  closeCalls : Nat

/-- `VideoPipelineEngine::run`: `initialize(); buildOperations();
processFrames(); shutdown();` with C++ exception flow — an exception in
any phase propagates immediately, skipping the later phases (including
`shutdown`, which is where `FfmpegAdapter::close` runs). -/
def engineRun (w : World) (job : VideoJob) :
    Except String (VideoContext × List Event) × RunStats :=
  match ffOpenInput w job.input with
  | .error e => (.error e, ⟨false, 0⟩)
  | .ok ctx0 =>
    match ffOpenOutput w job.output with
    | .error e => (.error e, ⟨true, 0⟩)
    | .ok _ =>
      match buildOperations job.operations with
      | .error e => (.error e, ⟨true, 0⟩)
      | .ok (ops, _warns) =>
        let (ctx1, t) := processFrames ops ctx0 (w.packets job.input)
        (.ok (ctx1, t), ⟨true, 1⟩)

/-- `JobManager::run`: one engine per job, strictly sequential.  There is
no per-job handler, so an exception escaping one engine run aborts the
loop.  The second component lists the inputs of the jobs the loop
reached (the "Processing job" log). -/
def runJobs (w : World) : List VideoJob → Except String Unit × List String
  | [] => (.ok (), [])
  | j :: rest =>
    match (engineRun w j).1 with
    | .error e => (.error e, [j.input])
    | .ok _ =>
      let (r, started) := runJobs w rest
      (r, j.input :: started)

/-- `main`: builds the jobs, runs them, and maps any escaping exception
to exit code 1 (the config document is given already loaded).  Returns
the exit code and the jobs the batch loop reached. -/
def mainRun (w : World) (opts : ProgramOptions) (config : Json) :
    Nat × List String :=
  match buildJobs opts config with
  | .error _ => (1, [])
  | .ok jobs =>
    match runJobs w jobs with
    | (.error _, started) => (1, started)
    | (.ok _, started) => (0, started)

/-! ## Watermark pixel model (`WatermarkRemoveOperation::apply`)

`cv::Mat` is an image grid; `cv::Rect` intersection follows OpenCV's
`operator&`.  The two OpenCV kernels are out-of-scope collaborators; the
repository confines their writes to the clipped rectangle by construction
(the blur runs in-place on the `img(rect)` view, the inpaint mask is the
filled rectangle), so each kernel is modelled as an arbitrary per-pixel
value function whose writes the code restricts to the rectangle. -/

/-- `cv::Rect` with integer coordinates. -/
structure RectI where
  x : Int
  y : Int
  width : Int
  height : Int

/-- OpenCV `Rect::operator&`: intersection, degenerating to the zero
rectangle when empty. -/
def RectI.inter (a b : RectI) : RectI :=
  let x1 := max a.x b.x
  let y1 := max a.y b.y
  let w := min (a.x + a.width) (b.x + b.width) - x1
  let h := min (a.y + a.height) (b.y + b.height) - y1
  if w ≤ 0 ∨ h ≤ 0 then ⟨0, 0, 0, 0⟩ else ⟨x1, y1, w, h⟩

/-- `Rect::area()`. -/
def RectI.area (r : RectI) : Int := r.width * r.height

/-- Pixel membership: column `c`, row `r` inside the rectangle. -/
def RectI.memB (rect : RectI) (row col : Nat) : Bool :=
  rect.x ≤ (col : Int) && (col : Int) < rect.x + rect.width &&
  rect.y ≤ (row : Int) && (row : Int) < rect.y + rect.height

/-- An image: `rows × cols` grid of pixels (`cv::Mat`). -/
structure Img (Pix : Type) where
  rows : Nat
  cols : Nat
  data : Nat → Nat → Pix

/-- Overwrite exactly the pixels of `rect` with values from `f` —
the write footprint both OpenCV calls have in `apply`. -/
def writeRegion (rect : RectI) (f : Nat → Nat → Pix) (img : Img Pix) :
    Img Pix :=
  { img with data := fun r c =>
      if rect.memB r c then f r c else img.data r c }

/-- The full frame rectangle `cv::Rect(0, 0, img.cols, img.rows)`. -/
def frameRect (img : Img Pix) : RectI :=
  ⟨0, 0, (img.cols : Int), (img.rows : Int)⟩

/-- The clipped rectangle of one configured region on this image. -/
def clipRegion (img : Img Pix) (reg : WatermarkRegion) : RectI :=
  (RectI.mk reg.x reg.y reg.width reg.height).inter (frameRect img)

/-- One iteration of the region loop in `WatermarkRemoveOperation::apply`:
clip to the frame, skip zero-area results, then apply the method's kernel
(`inpaintAt` for `"inpaint"`, `blurAt` otherwise) inside the rectangle. -/
def applyOne (blurAt inpaintAt : Img Pix → RectI → Nat → Nat → Pix)
    (img : Img Pix) (reg : WatermarkRegion) : Img Pix :=
  let rect := clipRegion img reg
  if rect.area ≤ 0 then img
  else if reg.method = "inpaint" then
    writeRegion rect (inpaintAt img rect) img
  else
    writeRegion rect (blurAt img rect) img

/-- `WatermarkRemoveOperation::apply`: fold the region list over the
image. -/
def applyRegions (blurAt inpaintAt : Img Pix → RectI → Nat → Nat → Pix)
    (regions : List WatermarkRegion) (img : Img Pix) : Img Pix :=
  regions.foldl (applyOne blurAt inpaintAt) img

/-- `WatermarkRemoveOperation::processFrame` on the pixel plane: early
return on an empty region list, otherwise `toMat` / `apply` / `fromMat`
(the conversions copy the pixel grid unchanged). -/
def wmProcessFrame (blurAt inpaintAt : Img Pix → RectI → Nat → Nat → Pix)
    (regions : List WatermarkRegion) (img : Img Pix) : Img Pix :=
  if regions.isEmpty then img
  else applyRegions blurAt inpaintAt regions img

/-! ## Order-equality observations on traces -/

/-- The timestamps the decoder collaborator emits for a packet list, in
input order (video-role packets whose decode succeeds). -/
def decodedPts (vid : Int) (ps : List Packet) : List Int :=
  ps.filterMap fun p =>
    if p.streamIndex = vid then p.decode.map Frame.pts else none

/-- The timestamps operation `i`'s `processFrame` hook receives, in trace
order. -/
def framesSeenBy (i : Nat) (t : List Event) : List Int :=
  t.filterMap fun e =>
    match e with
    | .procFrame j q => if j = i then some q else none
    | _ => none

/-- The timestamps submitted to the encoder, in trace order. -/
def encodedPts (t : List Event) : List Int :=
  t.filterMap fun e =>
    match e with
    | .encode q => some q
    | _ => none


/-! ## Well-formedness of config job objects and the spec-side job -/

/-- An `"operations"` element the descriptor loop accepts: it carries a
string `"type"` field. -/
def goodOpElemB (op : Json) : Bool :=
  match op.find? "type" with
  | some (.str _) => true
  | _ => false

/-- Field `k`, when present, is a string (so `value(k, default)` cannot
throw). -/
def goodStrFieldB (j : Json) (k : String) : Bool :=
  match j.find? k with
  | some (.str _) => true
  | none => true
  | some _ => false

/-- A well-formed job object: an object whose `"operations"` elements all
carry a string `"type"` and whose `"input"`/`"output"`, when present, are
strings. -/
def goodJobObjB (j : Json) : Bool :=
  j.isObject &&
  (match j.find? "operations" with
   | some opsJ => opsJ.elements.all goodOpElemB
   | none => true) &&
  goodStrFieldB j "input" && goodStrFieldB j "output"

/-- The `"type"` tag of an operations element (empty when absent). -/
def specTypeOf (op : Json) : String :=
  match op.find? "type" with
  | some (.str t) => t
  | _ => ""

/-- Modelled from the spec's words ("each taking input/output from its
own object and falling back to the CLI-level values only where the object
omits the field; one descriptor per operations element, the entire
element as its parameter bag"): the Job one job object should produce. -/
def jobOfObjSpec (opts : ProgramOptions) (j : Json) : VideoJob :=
  { input :=
      match j.find? "input" with
      | some (.str s) => s
      | _ => opts.input,
    output :=
      match j.find? "output" with
      | some (.str s) => s
      | _ => opts.output,
    operations :=
      match j.find? "operations" with
      | some opsJ => opsJ.elements.map fun op =>
          OperationDescriptor.mk (specTypeOf op) op
      | none => [] }

/-- The job objects a config document effectively describes: the
`"jobs"` elements when present, otherwise the document itself. -/
def effectiveJobCfgs (cfg : Json) : List Json :=
  match cfg.find? "jobs" with
  | some jobsJ => jobsJ.elements
  | none => [cfg]


/-! ## Lemmas about the frame loop -/

theorem opPrepare_video (op : Operation) (ctx : VideoContext) :
    (opPrepare op ctx).videoStreamIndex = ctx.videoStreamIndex := by
  cases op <;> rfl

theorem opPrepare_audio (op : Operation) (ctx : VideoContext) :
    (opPrepare op ctx).audioStreamIndex = ctx.audioStreamIndex := by
  cases op <;> rfl

theorem opProcessFrame_eq (op : Operation) (ctx : VideoContext) (f : Frame)
    (pts : Int) : opProcessFrame op ctx f pts = (ctx, f) := by
  cases op <;> rfl

theorem opFinalize_eq (op : Operation) (ctx : VideoContext) :
    opFinalize op ctx = ctx := by
  cases op <;> rfl

theorem runPrepare_trace (ops : List Operation) (ctx : VideoContext)
    (i : Nat) :
    (runPrepare ops ctx i).2 =
      (List.range' i ops.length).map Event.prepare := by
  induction ops generalizing ctx i with
  | nil => rfl
  | cons op rest ih =>
    simp [runPrepare, ih, List.range'_succ]

theorem runPrepare_video (ops : List Operation) (ctx : VideoContext)
    (i : Nat) :
    (runPrepare ops ctx i).1.videoStreamIndex = ctx.videoStreamIndex := by
  induction ops generalizing ctx i with
  | nil => rfl
  | cons op rest ih =>
    simp [runPrepare, ih, opPrepare_video]

theorem runPrepare_audio (ops : List Operation) (ctx : VideoContext)
    (i : Nat) :
    (runPrepare ops ctx i).1.audioStreamIndex = ctx.audioStreamIndex := by
  induction ops generalizing ctx i with
  | nil => rfl
  | cons op rest ih =>
    simp [runPrepare, ih, opPrepare_audio]

theorem runChain_eq (ops : List Operation) (ctx : VideoContext) (f : Frame)
    (pts : Int) (i : Nat) :
    runChain ops ctx f pts i =
      (ctx, f, (List.range' i ops.length).map
        (fun j => Event.procFrame j pts)) := by
  induction ops generalizing ctx f i with
  | nil => rfl
  | cons op rest ih =>
    simp [runChain, opProcessFrame_eq, ih, List.range'_succ]

theorem runFinalize_eq (ops : List Operation) (ctx : VideoContext)
    (i : Nat) :
    runFinalize ops ctx i =
      (ctx, (List.range' i ops.length).map Event.finalize) := by
  induction ops generalizing ctx i with
  | nil => rfl
  | cons op rest ih =>
    simp [runFinalize, opFinalize_eq, ih, List.range'_succ]

theorem packetStep_eq (ops : List Operation) (ctx : VideoContext)
    (p : Packet) :
    packetStep ops ctx p =
      (ctx, dispatchEvents ops.length ctx.videoStreamIndex
        ctx.audioStreamIndex p) := by
  unfold packetStep dispatchEvents
  by_cases hv : p.streamIndex = ctx.videoStreamIndex
  · rw [if_pos hv, if_pos hv]
    cases p.decode with
    | none => rfl
    | some f => simp [runChain_eq, List.range_eq_range']
  · rw [if_neg hv, if_neg hv]
    by_cases ha : p.streamIndex = ctx.audioStreamIndex
    · rw [if_pos ha, if_pos ha]
    · rw [if_neg ha, if_neg ha]

theorem runPackets_eq (ops : List Operation) (ctx : VideoContext)
    (packets : List Packet) :
    runPackets ops ctx packets =
      (ctx, packets.flatMap
        (dispatchEvents ops.length ctx.videoStreamIndex
          ctx.audioStreamIndex)) := by
  induction packets with
  | nil => rfl
  | cons p rest ih =>
    simp [runPackets, packetStep_eq, ih]

/-- Master decomposition of one `processFrames` run: its session result is
the prepare-phase fold, and its trace is the prepare events, the
per-packet dispatch events, the encoder flush, and the finalize events,
in that order. -/
theorem processFrames_eq (ops : List Operation) (ctx : VideoContext)
    (packets : List Packet) :
    processFrames ops ctx packets =
      ((runPrepare ops ctx 0).1,
        (List.range ops.length).map Event.prepare ++
        packets.flatMap (dispatchEvents ops.length ctx.videoStreamIndex
          ctx.audioStreamIndex) ++
        [Event.flush] ++
        (List.range ops.length).map Event.finalize) := by
  unfold processFrames
  simp only [runPackets_eq, flushEncoder, runFinalize_eq, runPrepare_trace,
    runPrepare_video, runPrepare_audio, List.range_eq_range']

/-! ## C8: SubtitleRemove's prepare hook -/

/-- C8: for every session state, `SubtitleRemoveOperation::prepare` sets
the subtitle stream role to the "none" sentinel (`-1`) and empties the
cue list, and applying it a second time leaves the session unchanged. -/
theorem subtitleRemove_prepare_idempotent (ctx : VideoContext) :
    (opPrepare .subtitleRemove ctx).subtitleStreamIndex = -1 ∧
    (opPrepare .subtitleRemove ctx).subtitles.cues = [] ∧
    opPrepare .subtitleRemove (opPrepare .subtitleRemove ctx) =
      opPrepare .subtitleRemove ctx := by
  exact ⟨rfl, rfl, rfl⟩

theorem decodedPts_cons (vid : Int) (p : Packet) (rest : List Packet) :
    decodedPts vid (p :: rest) =
      (if p.streamIndex = vid then p.decode.map Frame.pts else none
        ).toList ++ decodedPts vid rest := by
  simp only [decodedPts, List.filterMap_cons]
  generalize (if p.streamIndex = vid then p.decode.map Frame.pts else none)
    = o
  cases o <;> simp

theorem filterMap_range_single (i n : Nat) (v : Int) :
    (List.range n).filterMap
      (fun j => if j = i then some v else none) =
      if i < n then [v] else [] := by
  induction n with
  | zero => simp
  | succ n ih =>
    rw [List.range_succ, List.filterMap_append, ih]
    by_cases h : i < n
    · have hne : n ≠ i := by omega
      simp [h, hne, Nat.lt_succ_of_lt h]
    · by_cases he : n = i
      · subst he
        simp [h, Nat.lt_succ_self]
      · have : ¬ i < n + 1 := by omega
        simp [h, he, this]

theorem framesSeenBy_prepare (i : Nat) (l : List Nat) :
    framesSeenBy i (l.map Event.prepare) = [] := by
  induction l with
  | nil => rfl
  | cons x xs ih => simpa [framesSeenBy] using ih

theorem framesSeenBy_finalize (i : Nat) (l : List Nat) :
    framesSeenBy i (l.map Event.finalize) = [] := by
  induction l with
  | nil => rfl
  | cons x xs ih => simpa [framesSeenBy] using ih

theorem framesSeenBy_dispatch (i n : Nat) (vid aud : Int) (p : Packet) :
    framesSeenBy i (dispatchEvents n vid aud p) =
      if i < n then
        (if p.streamIndex = vid then p.decode.map Frame.pts else none
          ).toList
      else [] := by
  unfold dispatchEvents
  by_cases hv : p.streamIndex = vid
  · rw [if_pos hv]
    cases p.decode with
    | none => simp [framesSeenBy]
    | some f =>
      simp only [framesSeenBy, List.filterMap_append, List.filterMap_map]
      have : (List.range n).filterMap
          ((fun e => match e with
            | .procFrame j q => if j = i then some q else none
            | _ => none) ∘ (fun j => Event.procFrame j f.pts)) =
          (List.range n).filterMap
            (fun j => if j = i then some f.pts else none) := by
        rfl
      rw [this, filterMap_range_single]
      by_cases h : i < n <;> simp [h, hv, Option.toList]
  · rw [if_neg hv]
    by_cases ha : p.streamIndex = aud
    · rw [if_pos ha]
      simp [framesSeenBy, hv]
    · rw [if_neg ha]
      simp [framesSeenBy, hv]

theorem framesSeenBy_flatMap (i n : Nat) (vid aud : Int)
    (ps : List Packet) :
    framesSeenBy i (ps.flatMap (dispatchEvents n vid aud)) =
      if i < n then decodedPts vid ps else [] := by
  induction ps with
  | nil => simp [framesSeenBy, decodedPts]
  | cons p rest ih =>
    simp only [List.flatMap_cons, framesSeenBy, List.filterMap_append]
    have h1 := framesSeenBy_dispatch i n vid aud p
    unfold framesSeenBy at h1 ih
    rw [h1, ih]
    by_cases h : i < n
    · rw [if_pos h, if_pos h, if_pos h, decodedPts_cons]
    · simp [h]

theorem encodedPts_prepare (l : List Nat) :
    encodedPts (l.map Event.prepare) = [] := by
  induction l with
  | nil => rfl
  | cons x xs ih => simpa [encodedPts] using ih

theorem encodedPts_finalize (l : List Nat) :
    encodedPts (l.map Event.finalize) = [] := by
  induction l with
  | nil => rfl
  | cons x xs ih => simpa [encodedPts] using ih

theorem encodedPts_dispatch (n : Nat) (vid aud : Int) (p : Packet) :
    encodedPts (dispatchEvents n vid aud p) =
      (if p.streamIndex = vid then p.decode.map Frame.pts else none
        ).toList := by
  unfold dispatchEvents
  by_cases hv : p.streamIndex = vid
  · rw [if_pos hv]
    cases p.decode with
    | none => simp [encodedPts, hv]
    | some f =>
      simp only [encodedPts, List.filterMap_append, List.filterMap_map]
      have : (List.range n).filterMap
          ((fun e => match e with
            | .encode q => some q
            | _ => none) ∘ (fun j => Event.procFrame j f.pts)) = [] := by
        simp [Function.comp]
      rw [this]
      simp [hv, Option.toList]
  · rw [if_neg hv]
    by_cases ha : p.streamIndex = aud
    · rw [if_pos ha]
      simp [encodedPts, hv]
    · rw [if_neg ha]
      simp [encodedPts, hv]

theorem encodedPts_flatMap (n : Nat) (vid aud : Int) (ps : List Packet) :
    encodedPts (ps.flatMap (dispatchEvents n vid aud)) =
      decodedPts vid ps := by
  induction ps with
  | nil => simp [encodedPts, decodedPts]
  | cons p rest ih =>
    simp only [List.flatMap_cons, encodedPts, List.filterMap_append]
    have h1 := encodedPts_dispatch n vid aud p
    unfold encodedPts at h1 ih
    rw [h1, ih, decodedPts_cons]

/-! ## C4: hook ordering within one `processFrames` run -/

/-- C4: in every `processFrames` run the trace is exactly: every
operation's prepare hook once, in chain order, before anything else; then
per input packet — for each successfully decoded video frame every
operation's process-frame hook once, in chain order, immediately followed
by that frame's encoder submission; then the encoder flush; then every
finalize hook once, in chain order.  Moreover every operation processes
exactly the decoder's emitted timestamp sequence, and the encoder
receives exactly that sequence: processing order = decoder emission order
= encoder submission order. -/
theorem processFrames_hook_order (ops : List Operation)
    (ctx : VideoContext) (packets : List Packet) :
    (processFrames ops ctx packets).2 =
      (List.range ops.length).map Event.prepare ++
      packets.flatMap (fun p =>
        if p.streamIndex = ctx.videoStreamIndex then
          match p.decode with
          | some f =>
            (List.range ops.length).map
              (fun i => Event.procFrame i f.pts) ++ [Event.encode f.pts]
          | none => []
        else if p.streamIndex = ctx.audioStreamIndex then
          [Event.copyPacket p]
        else []) ++
      [Event.flush] ++
      (List.range ops.length).map Event.finalize ∧
    (∀ i, framesSeenBy i (processFrames ops ctx packets).2 =
      if i < ops.length then
        decodedPts ctx.videoStreamIndex packets
      else []) ∧
    encodedPts (processFrames ops ctx packets).2 =
      decodedPts ctx.videoStreamIndex packets := by
  rw [processFrames_eq]
  refine ⟨rfl, ?_, ?_⟩
  · intro i
    simp only [framesSeenBy, List.filterMap_append]
    have h1 := framesSeenBy_prepare i (List.range ops.length)
    have h2 := framesSeenBy_flatMap i ops.length ctx.videoStreamIndex
      ctx.audioStreamIndex packets
    have h4 := framesSeenBy_finalize i (List.range ops.length)
    unfold framesSeenBy at h1 h2 h4
    rw [h1, h2, h4]
    simp
  · simp only [encodedPts, List.filterMap_append]
    have h1 := encodedPts_prepare (List.range ops.length)
    have h2 := encodedPts_flatMap ops.length ctx.videoStreamIndex
      ctx.audioStreamIndex packets
    have h4 := encodedPts_finalize (List.range ops.length)
    unfold encodedPts at h1 h2 h4
    rw [h1, h2, h4]
    simp

/-! ## C6: decode failure skips the frame and processing continues -/

/-- C6: a video packet whose decode fails contributes nothing to the run
— no process-frame hook fires for it and nothing is encoded for it — and
the rest of the input is processed exactly as if that packet were absent:
the run equals the run on the packet list with the failing packet
removed. -/
theorem processFrames_decode_failure_skips (ops : List Operation)
    (ctx : VideoContext) (pre post : List Packet) (bad : Packet)
    (h1 : bad.streamIndex = ctx.videoStreamIndex)
    (h2 : bad.decode = none) :
    processFrames ops ctx (pre ++ bad :: post) =
      processFrames ops ctx (pre ++ post) := by
  rw [processFrames_eq, processFrames_eq]
  have hbad : dispatchEvents ops.length ctx.videoStreamIndex
      ctx.audioStreamIndex bad = [] := by
    simp [dispatchEvents, h1, h2]
  simp [hbad]

/-- C6 witness: a concrete run in which the middle video packet fails to
decode equals the run without that packet. -/
theorem processFrames_decode_failure_skips_witness :
    processFrames [Operation.subtitleRemove]
        { videoStreamIndex := 0, audioStreamIndex := 1 }
        ([⟨0, some ⟨5⟩⟩] ++ ⟨0, none⟩ :: [⟨1, none⟩]) =
      processFrames [Operation.subtitleRemove]
        { videoStreamIndex := 0, audioStreamIndex := 1 }
        ([⟨0, some ⟨5⟩⟩] ++ [⟨1, none⟩]) :=
  processFrames_decode_failure_skips [Operation.subtitleRemove]
    { videoStreamIndex := 0, audioStreamIndex := 1 }
    [⟨0, some ⟨5⟩⟩] [⟨1, none⟩] ⟨0, none⟩ rfl rfl

/-! ## C7: per-packet role dispatch -/

/-- C7: during the Running phase every input packet is dispatched by its
stream's role: the trace is the per-packet dispatch events in input
order, where a packet on the video-role stream is decoded and (on
success) routed through the whole chain and encoded, a packet on the
audio-role stream is passed through to the output unchanged, and a packet
on any other stream contributes nothing; no packet off the video-role
stream ever reaches a process-frame hook. -/
theorem processFrames_role_dispatch (ops : List Operation)
    (ctx : VideoContext) (packets : List Packet) :
    (processFrames ops ctx packets).2 =
      (List.range ops.length).map Event.prepare ++
      packets.flatMap (dispatchEvents ops.length ctx.videoStreamIndex
        ctx.audioStreamIndex) ++
      [Event.flush] ++
      (List.range ops.length).map Event.finalize ∧
    (∀ p : Packet, ∀ f : Frame,
      p.streamIndex = ctx.videoStreamIndex → p.decode = some f →
      dispatchEvents ops.length ctx.videoStreamIndex ctx.audioStreamIndex
          p =
        (List.range ops.length).map (fun i => Event.procFrame i f.pts) ++
          [Event.encode f.pts]) ∧
    (∀ p : Packet, p.streamIndex ≠ ctx.videoStreamIndex →
      p.streamIndex = ctx.audioStreamIndex →
      dispatchEvents ops.length ctx.videoStreamIndex ctx.audioStreamIndex
          p = [Event.copyPacket p]) ∧
    (∀ p : Packet, p.streamIndex ≠ ctx.videoStreamIndex →
      p.streamIndex ≠ ctx.audioStreamIndex →
      dispatchEvents ops.length ctx.videoStreamIndex ctx.audioStreamIndex
          p = []) ∧
    (∀ p : Packet, p.streamIndex ≠ ctx.videoStreamIndex →
      ∀ i : Nat, ∀ pts : Int,
      Event.procFrame i pts ∉
        dispatchEvents ops.length ctx.videoStreamIndex
          ctx.audioStreamIndex p) := by
  refine ⟨(processFrames_eq ops ctx packets ▸ rfl), ?_, ?_, ?_, ?_⟩
  · intro p f hv hd
    simp [dispatchEvents, hv, hd]
  · intro p hv ha
    unfold dispatchEvents
    rw [if_neg hv, if_pos ha]
  · intro p hv ha
    unfold dispatchEvents
    rw [if_neg hv, if_neg ha]
  · intro p hv i pts
    unfold dispatchEvents
    rw [if_neg hv]
    by_cases ha : p.streamIndex = ctx.audioStreamIndex
    · rw [if_pos ha]
      simp
    · rw [if_neg ha]
      simp

/-- C7 witness: concrete dispatch outcomes — an audio-role packet is
copied through unchanged, an unassigned-role packet is ignored, and a
subtitle-role packet never reaches a chain hook. -/
theorem processFrames_role_dispatch_witness :
    dispatchEvents 1 0 1 ⟨1, none⟩ = [Event.copyPacket ⟨1, none⟩] ∧
    dispatchEvents 1 0 1 ⟨2, none⟩ = [] ∧
    Event.procFrame 0 7 ∉ dispatchEvents 1 0 1 ⟨2, some ⟨7⟩⟩ := by
  refine ⟨?_, ?_, ?_⟩
  · exact (processFrames_role_dispatch [Operation.subtitleRemove]
      { videoStreamIndex := 0, audioStreamIndex := 1 } []).2.2.1
      ⟨1, none⟩ (by decide) rfl
  · exact (processFrames_role_dispatch [Operation.subtitleRemove]
      { videoStreamIndex := 0, audioStreamIndex := 1 } []).2.2.2.1
      ⟨2, none⟩ (by decide) (by decide)
  · exact (processFrames_role_dispatch [Operation.subtitleRemove]
      { videoStreamIndex := 0, audioStreamIndex := 1 } []).2.2.2.2
      ⟨2, some ⟨7⟩⟩ (by decide) 0 7

/-! ## C5: the skip-unknown policy of `buildOperations` -/

theorem except_bind_ok (a : α) (f : α → Except String β) :
    (Except.ok a >>= f) = f a := rfl

theorem except_bind_err (e : String) (f : α → Except String β) :
    ((Except.error e : Except String α) >>= f) = .error e := rfl

theorem except_pure (a : α) : (pure a : Except String α) = .ok a := rfl

theorem except_map_ok (f : α → β) (a : α) :
    (f <$> (Except.ok a : Except String α)) = .ok (f a) := rfl

theorem except_map_err (f : α → β) (e : String) :
    (f <$> (Except.error e : Except String α)) = .error e := rfl

theorem mkOperation_ok_none_iff (d : OperationDescriptor) :
    mkOperation d = .ok none ↔
      (d.type ≠ "subtitles_translate" ∧ d.type ≠ "subtitles_remove" ∧
       d.type ≠ "watermark_remove" ∧ d.type ≠ "voiceover") := by
  unfold mkOperation
  by_cases h1 : d.type = "subtitles_translate"
  · rw [if_pos h1]
    cases hsrc : d.params.valueStr "src_lang" "auto" with
    | error e => simp [h1, hsrc, except_bind_err]
    | ok s =>
      cases hdst : d.params.valueStr "dst_lang" "auto" with
      | error e =>
        simp [h1, hsrc, hdst, except_bind_ok, except_bind_err,
          except_map_err]
      | ok t => simp [h1, hsrc, hdst, except_bind_ok, except_map_ok]
  · rw [if_neg h1]
    by_cases h2 : d.type = "subtitles_remove"
    · rw [if_pos h2]
      simp [h2, except_pure]
    · rw [if_neg h2]
      by_cases h3 : d.type = "watermark_remove"
      · rw [if_pos h3]
        cases hfind : d.params.find? "regions" with
        | none => simp [h3, hfind, except_pure, except_map_ok,
            except_bind_ok]
        | some rs =>
          cases hm : mapExcept regionOfJson rs.elements with
          | error e =>
            simp [h3, hfind, hm, except_map_err, except_bind_err]
          | ok l => simp [h3, hfind, hm, except_map_ok, except_bind_ok]
      · rw [if_neg h3]
        by_cases h4 : d.type = "voiceover"
        · rw [if_pos h4]
          cases hl : d.params.valueStr "lang" "auto" with
          | error e => simp [h4, hl, except_bind_err]
          | ok l =>
            cases hb : d.params.valueStr "base_url" "" with
            | error e => simp [h4, hl, hb, except_bind_ok, except_bind_err]
            | ok b =>
              cases hk : d.params.valueStr "api_key" "" with
              | error e =>
                simp [h4, hl, hb, hk, except_bind_ok, except_bind_err,
                  except_map_err]
              | ok k => simp [h4, hl, hb, hk, except_bind_ok,
                  except_map_ok]
        · rw [if_neg h4]
          simp [h1, h2, h3, h4, except_pure]

theorem buildOperations_ok_of (ds : List OperationDescriptor)
    (h : ∀ d ∈ ds, ∃ r, mkOperation d = .ok r) :
    buildOperations ds = .ok
      (ds.filterMap fun d =>
        match mkOperation d with
        | .ok (some op) => some op
        | _ => none,
       ds.filterMap fun d =>
        match mkOperation d with
        | .ok none => some d.type
        | _ => none) := by
  induction ds with
  | nil => rfl
  | cons d rest ih =>
    obtain ⟨r, hr⟩ := h d (List.mem_cons_self d rest)
    have hrest := ih fun x hx => h x (List.mem_cons_of_mem d hx)
    cases r with
    | some op =>
      simp [buildOperations, hr, hrest, except_bind_ok, except_pure,
        except_map_ok, List.filterMap_cons]
    | none =>
      simp [buildOperations, hr, hrest, except_bind_ok, except_pure,
        except_map_ok, List.filterMap_cons]

/-- C5 counterexample: a descriptor with a *recognized* type whose
parameter bag carries an ill-typed field ({"type":"voiceover","lang":5})
makes the constructor throw, so building the chain aborts the job — the
claim's "never aborting the job" is false as stated. -/
theorem buildOperations_illtyped_param_aborts :
    buildOperations
        [⟨"voiceover", Json.obj [("lang", Json.num 5)]⟩] =
      .error "json type_error: type must be string" := rfl

/-- C5 (amended): provided each recognized descriptor's parameter fields
decode (the constructors do not throw), building the chain never aborts:
it yields exactly the recognized descriptors' operations in declared
order, warning once per unrecognized type; and a descriptor is skipped
with a warning precisely when its type is none of the four recognized
tags. -/
theorem buildOperations_skips_unknown (ds : List OperationDescriptor)
    (h : ∀ d ∈ ds, ∃ r, mkOperation d = .ok r) :
    buildOperations ds = .ok
      (ds.filterMap fun d =>
        match mkOperation d with
        | .ok (some op) => some op
        | _ => none,
       ds.filterMap fun d =>
        match mkOperation d with
        | .ok none => some d.type
        | _ => none) ∧
    ∀ d : OperationDescriptor,
      (mkOperation d = .ok none ↔
        (d.type ≠ "subtitles_translate" ∧ d.type ≠ "subtitles_remove" ∧
         d.type ≠ "watermark_remove" ∧ d.type ≠ "voiceover")) :=
  ⟨buildOperations_ok_of ds h, mkOperation_ok_none_iff⟩

/-- C5 witness: one unknown type between two valid ones yields exactly
the two valid operations, in order, and one warning. -/
theorem buildOperations_skips_unknown_witness :
    buildOperations
        [⟨"subtitles_translate", Json.obj []⟩, ⟨"bogus", Json.null⟩,
         ⟨"subtitles_remove", Json.null⟩] =
      .ok ([Operation.subtitleTranslate "auto" "auto",
            Operation.subtitleRemove], ["bogus"]) ∧
    mkOperation ⟨"bogus", Json.null⟩ = .ok none := by
  have h : ∀ d ∈ ([⟨"subtitles_translate", Json.obj []⟩,
      ⟨"bogus", Json.null⟩, ⟨"subtitles_remove", Json.null⟩] :
        List OperationDescriptor), ∃ r, mkOperation d = .ok r := by
    intro d hd
    simp only [List.mem_cons, List.not_mem_nil, or_false] at hd
    rcases hd with rfl | rfl | rfl
    · exact ⟨some (.subtitleTranslate "auto" "auto"), rfl⟩
    · exact ⟨none, rfl⟩
    · exact ⟨some .subtitleRemove, rfl⟩
  refine ⟨?_, ?_⟩
  · exact (buildOperations_skips_unknown _ h).1
  · exact ((buildOperations_skips_unknown _ h).2
      ⟨"bogus", Json.null⟩).mpr (by decide)

/-! ## C3: the Job Builder on config documents -/

theorem mapExcept_ok_of (f : α → Except String β) (g : α → β)
    (l : List α) (h : ∀ x ∈ l, f x = .ok (g x)) :
    mapExcept f l = .ok (l.map g) := by
  induction l with
  | nil => rfl
  | cons x xs ih =>
    have hx := h x (List.mem_cons_self x xs)
    have hxs := ih fun y hy => h y (List.mem_cons_of_mem x hy)
    simp [mapExcept, hx, hxs, except_bind_ok, except_pure, except_map_ok]

theorem descriptorOfElement_ok (op : Json) (h : goodOpElemB op = true) :
    descriptorOfElement op = .ok ⟨specTypeOf op, op⟩ := by
  cases op with
  | obj fs =>
    simp only [goodOpElemB, Json.find?] at h
    cases hf : findField fs "type" with
    | none => rw [hf] at h; exact absurd h (by simp)
    | some v =>
      rw [hf] at h
      cases v with
      | str t =>
        simp [descriptorOfElement, Json.atKey, hf, Json.getStr,
          except_bind_ok, except_pure, specTypeOf, Json.find?]
      | null => exact absurd h (by simp)
      | bool b => exact absurd h (by simp)
      | num n => exact absurd h (by simp)
      | arr xs => exact absurd h (by simp)
      | obj gs => exact absurd h (by simp)
  | null => exact absurd h (by simp [goodOpElemB, Json.find?])
  | bool b => exact absurd h (by simp [goodOpElemB, Json.find?])
  | num n => exact absurd h (by simp [goodOpElemB, Json.find?])
  | str s => exact absurd h (by simp [goodOpElemB, Json.find?])
  | arr xs => exact absurd h (by simp [goodOpElemB, Json.find?])

theorem valueStr_good (j : Json) (k d : String)
    (hobj : j.isObject = true) (hg : goodStrFieldB j k = true) :
    j.valueStr k d = .ok
      (match j.find? k with
       | some (.str s) => s
       | _ => d) := by
  cases j with
  | obj fs =>
    simp only [goodStrFieldB, Json.find?] at hg
    simp only [Json.valueStr, Json.find?]
    cases hf : findField fs k with
    | none => rfl
    | some v =>
      rw [hf] at hg
      cases v with
      | str s => rfl
      | null => exact absurd hg (by simp)
      | bool b => exact absurd hg (by simp)
      | num n => exact absurd hg (by simp)
      | arr xs => exact absurd hg (by simp)
      | obj gs => exact absurd hg (by simp)
  | null => exact absurd hobj (by simp [Json.isObject])
  | bool b => exact absurd hobj (by simp [Json.isObject])
  | num n => exact absurd hobj (by simp [Json.isObject])
  | str s => exact absurd hobj (by simp [Json.isObject])
  | arr xs => exact absurd hobj (by simp [Json.isObject])

theorem buildJobFromConfig_ok (opts : ProgramOptions) (j : Json)
    (h : goodJobObjB j = true) :
    buildJobFromConfig opts j = .ok (jobOfObjSpec opts j) := by
  have hobj : j.isObject = true := by
    unfold goodJobObjB at h
    simp only [Bool.and_eq_true] at h
    exact h.1.1.1
  have hin : goodStrFieldB j "input" = true := by
    unfold goodJobObjB at h
    simp only [Bool.and_eq_true] at h
    exact h.1.2
  have hout : goodStrFieldB j "output" = true := by
    unfold goodJobObjB at h
    simp only [Bool.and_eq_true] at h
    exact h.2
  have hops : ∀ opsJ, j.find? "operations" = some opsJ →
      ∀ op ∈ opsJ.elements, goodOpElemB op = true := by
    intro opsJ hfind op hop
    unfold goodJobObjB at h
    simp only [Bool.and_eq_true] at h
    have := h.1.1.2
    rw [hfind] at this
    exact List.all_eq_true.mp this op hop
  unfold buildJobFromConfig jobOfObjSpec
  cases hfind : j.find? "operations" with
  | none =>
    simp [except_bind_ok, except_pure, except_map_ok,
      valueStr_good j "input" opts.input hobj hin,
      valueStr_good j "output" opts.output hobj hout]
  | some opsJ =>
    have hmap := mapExcept_ok_of descriptorOfElement
      (fun op => OperationDescriptor.mk (specTypeOf op) op)
      opsJ.elements
      (fun op hop => descriptorOfElement_ok op (hops opsJ hfind op hop))
    simp [hmap, except_bind_ok, except_pure, except_map_ok,
      valueStr_good j "input" opts.input hobj hin,
      valueStr_good j "output" opts.output hobj hout]

/-- C3 counterexample: a config whose `"jobs"` array has length 1, but
whose single element holds an operations entry without `"type"`:
the Job Builder throws instead of returning one Job, so "returns exactly
N Jobs" fails as stated. -/
theorem buildJobs_malformed_element_cex :
    (Json.obj [("jobs", Json.arr
        [Json.obj [("operations",
          Json.arr [Json.obj [("x", Json.num 1)]])]])]).find? "jobs" =
      some (Json.arr [Json.obj [("operations",
        Json.arr [Json.obj [("x", Json.num 1)]])]]) ∧
    buildJobs
        ⟨[], "cli_in", "cli_out", some "cfg.json",
          none, none, none, none, none⟩
        (Json.obj [("jobs", Json.arr
          [Json.obj [("operations",
            Json.arr [Json.obj [("x", Json.num 1)]])]])]) =
      .error "json out_of_range: key not found: type" :=
  ⟨rfl, rfl⟩

/-- C3 (amended): for every supplied config path whose loaded document is
an object containing a `"jobs"` array of length N *whose elements are
well-formed job objects* (objects whose operations entries carry a string
`"type"` and whose `input`/`output`, when present, are strings), the Job
Builder returns exactly N Jobs, one per element in order, each taking
input/output from its own object with CLI fallback where omitted; a
malformed element instead makes the whole build throw.  When no config
path is supplied or the document is not an object, exactly one
CLI-assembled Job is returned. -/
theorem buildJobs_spec :
    (∀ opts : ProgramOptions, ∀ cfg : Json, ∀ jobsL : List Json,
      opts.configPath.isSome = true → cfg.isObject = true →
      cfg.find? "jobs" = some (Json.arr jobsL) →
      jobsL.all goodJobObjB = true →
      buildJobs opts cfg = .ok (jobsL.map (jobOfObjSpec opts)) ∧
        (jobsL.map (jobOfObjSpec opts)).length = jobsL.length) ∧
    (∀ opts : ProgramOptions, ∀ cfg : Json,
      opts.configPath.isSome = false ∨ cfg.isObject = false →
      buildJobs opts cfg = .ok [buildJobFromCli opts]) := by
  constructor
  · intro opts cfg jobsL h1 h2 hjobs hall
    constructor
    · unfold buildJobs
      rw [if_pos ⟨h1, h2⟩, hjobs]
      exact mapExcept_ok_of _ _ jobsL fun j hj =>
        buildJobFromConfig_ok opts j (List.all_eq_true.mp hall j hj)
    · exact List.length_map jobsL (jobOfObjSpec opts)
  · intro opts cfg h
    unfold buildJobs
    rw [if_neg]
    rcases h with h | h
    · intro hc
      rw [h] at hc
      exact absurd hc.1 (by simp)
    · intro hc
      rw [h] at hc
      exact absurd hc.2 (by simp)

/-- C3 witness: a two-element jobs array builds exactly those two jobs
with per-object input and CLI fallback, and a non-object document falls
back to the single CLI job. -/
theorem buildJobs_spec_witness :
    buildJobs
        ⟨["voiceover"], "cli_in", "cli_out", some "cfg.json",
          none, none, none, none, none⟩
        (Json.obj [("jobs", Json.arr
          [Json.obj [("input", Json.str "v.mp4"),
            ("operations", Json.arr
              [Json.obj [("type", Json.str "subtitles_remove")]])],
           Json.obj [("output", Json.str "w.mkv")]])]) =
      .ok [⟨"v.mp4", "cli_out",
            [⟨"subtitles_remove",
              Json.obj [("type", Json.str "subtitles_remove")]⟩]⟩,
           ⟨"cli_in", "w.mkv", []⟩] ∧
    buildJobs
        ⟨["voiceover"], "cli_in", "cli_out", some "cfg.json",
          none, none, none, none, none⟩ (Json.num 3) =
      .ok [buildJobFromCli
        ⟨["voiceover"], "cli_in", "cli_out", some "cfg.json",
          none, none, none, none, none⟩] := by
  constructor
  · exact (buildJobs_spec.1
      ⟨["voiceover"], "cli_in", "cli_out", some "cfg.json",
        none, none, none, none, none⟩
      (Json.obj [("jobs", Json.arr
        [Json.obj [("input", Json.str "v.mp4"),
          ("operations", Json.arr
            [Json.obj [("type", Json.str "subtitles_remove")]])],
         Json.obj [("output", Json.str "w.mkv")]])])
      [Json.obj [("input", Json.str "v.mp4"),
        ("operations", Json.arr
          [Json.obj [("type", Json.str "subtitles_remove")]])],
       Json.obj [("output", Json.str "w.mkv")]]
      rfl rfl rfl rfl).1
  · exact buildJobs_spec.2
      ⟨["voiceover"], "cli_in", "cli_out", some "cfg.json",
        none, none, none, none, none⟩
      (Json.num 3) (Or.inr rfl)

/-! ## C10: a missing `"type"` field aborts the whole run -/

theorem mapExcept_isError_of_mem (f : α → Except String β) (l : List α)
    (x : α) (hx : x ∈ l) (herr : ∃ e, f x = .error e) :
    ∃ e', mapExcept f l = .error e' := by
  induction l with
  | nil => exact absurd hx (List.not_mem_nil x)
  | cons y ys ih =>
    cases hfy : f y with
    | error e => exact ⟨e, by simp [mapExcept, hfy, except_bind_err]⟩
    | ok v =>
      rcases List.mem_cons.mp hx with rfl | hx'
      · obtain ⟨e, he⟩ := herr
        rw [hfy] at he
        exact absurd he (by simp)
      · obtain ⟨e', he'⟩ := ih hx'
        exact ⟨e', by simp [mapExcept, hfy, he', except_bind_ok,
          except_bind_err]⟩

theorem descriptorOfElement_err (op : Json)
    (hne : op.find? "type" = none) :
    ∃ e, descriptorOfElement op = .error e := by
  cases op with
  | obj fs =>
    simp only [Json.find?] at hne
    exact ⟨"json out_of_range: key not found: " ++ "type",
      by simp [descriptorOfElement, Json.atKey, hne, except_bind_err]⟩
  | null => exact ⟨"json type_error: cannot use at() with key " ++ "type",
      by simp [descriptorOfElement, Json.atKey, except_bind_err]⟩
  | bool b =>
    exact ⟨"json type_error: cannot use at() with key " ++ "type",
      by simp [descriptorOfElement, Json.atKey, except_bind_err]⟩
  | num n =>
    exact ⟨"json type_error: cannot use at() with key " ++ "type",
      by simp [descriptorOfElement, Json.atKey, except_bind_err]⟩
  | str s =>
    exact ⟨"json type_error: cannot use at() with key " ++ "type",
      by simp [descriptorOfElement, Json.atKey, except_bind_err]⟩
  | arr xs =>
    exact ⟨"json type_error: cannot use at() with key " ++ "type",
      by simp [descriptorOfElement, Json.atKey, except_bind_err]⟩

theorem buildJobFromConfig_err (opts : ProgramOptions) (j opsJ op : Json)
    (hfind : j.find? "operations" = some opsJ)
    (hop : op ∈ opsJ.elements) (hne : op.find? "type" = none) :
    ∃ e, buildJobFromConfig opts j = .error e := by
  obtain ⟨e', hmap⟩ := mapExcept_isError_of_mem descriptorOfElement
    opsJ.elements op hop (descriptorOfElement_err op hne)
  exact ⟨e', by
    unfold buildJobFromConfig
    rw [hfind]
    simp [hmap, except_bind_err]⟩

/-- C10: an operations element lacking a `"type"` field makes job
building throw: the whole run aborts with a non-zero exit before any job
executes — in contrast to a merely unrecognized `"type"` *value*, which
the chain builder skips with a warning (`mkOperation` returns the
skip marker instead of throwing). -/
theorem missing_type_aborts_run (w : World) (opts : ProgramOptions)
    (cfg j opsJ op : Json)
    (hpath : opts.configPath.isSome = true)
    (hobj : cfg.isObject = true)
    (hj : j ∈ effectiveJobCfgs cfg)
    (hfind : j.find? "operations" = some opsJ)
    (hop : op ∈ opsJ.elements)
    (hnt : op.find? "type" = none) :
    (∃ e, buildJobs opts cfg = .error e) ∧
    mainRun w opts cfg = (1, []) ∧
    (∀ t : String, ∀ params : Json,
      t ≠ "subtitles_translate" → t ≠ "subtitles_remove" →
      t ≠ "watermark_remove" → t ≠ "voiceover" →
      mkOperation ⟨t, params⟩ = .ok none) := by
  have herr : ∃ e, buildJobs opts cfg = .error e := by
    unfold buildJobs
    rw [if_pos ⟨hpath, hobj⟩]
    unfold effectiveJobCfgs at hj
    cases hjobs : cfg.find? "jobs" with
    | some jobsJ =>
      rw [hjobs] at hj
      exact mapExcept_isError_of_mem (buildJobFromConfig opts)
        jobsJ.elements j hj
        (buildJobFromConfig_err opts j opsJ op hfind hop hnt)
    | none =>
      rw [hjobs] at hj
      rcases List.mem_singleton.mp hj with rfl
      obtain ⟨e, he⟩ :=
        buildJobFromConfig_err opts j opsJ op hfind hop hnt
      exact ⟨e, by rw [he]; rfl⟩
  refine ⟨herr, ?_, ?_⟩
  · obtain ⟨e, he⟩ := herr
    unfold mainRun
    rw [he]
  · intro t params h1 h2 h3 h4
    exact (mkOperation_ok_none_iff ⟨t, params⟩).mpr ⟨h1, h2, h3, h4⟩

/-- C10 witness: a concrete single-job config whose operations element
lacks `"type"` exits with code 1 having run no job, while an
unrecognized type value is merely skipped. -/
theorem missing_type_aborts_run_witness :
    mainRun ⟨fun _ => none, fun _ => true, fun _ => []⟩
        ⟨[], "ci", "co", some "c.json", none, none, none, none, none⟩
        (Json.obj [("operations",
          Json.arr [Json.obj [("x", Json.num 2)]])]) = (1, []) ∧
    mkOperation ⟨"unknown_op", Json.num 1⟩ = .ok none := by
  have h := missing_type_aborts_run
    ⟨fun _ => none, fun _ => true, fun _ => []⟩
    ⟨[], "ci", "co", some "c.json", none, none, none, none, none⟩
    (Json.obj [("operations", Json.arr [Json.obj [("x", Json.num 2)]])])
    (Json.obj [("operations", Json.arr [Json.obj [("x", Json.num 2)]])])
    (Json.arr [Json.obj [("x", Json.num 2)]])
    (Json.obj [("x", Json.num 2)])
    rfl rfl (List.mem_singleton.mpr rfl) rfl
    (List.mem_singleton.mpr rfl) rfl
  exact ⟨h.2.1, h.2.2 "unknown_op" (Json.num 1)
    (by decide) (by decide) (by decide) (by decide)⟩

/-! ## C1: resource release on the engine's exit paths -/

/-- C1 (code bug): `VideoPipelineEngine::run` reaches `shutdown()` (the
single `FfmpegAdapter::close` call) only after all earlier phases return.
On a run whose input opens successfully but whose output context cannot
be allocated, the run aborts with the input opened and `close` called
zero times — the opened input handle leaks, contradicting "released
exactly once on every exit path".  On the success path, `close` runs
exactly once. -/
theorem engineRun_close_skipped_on_abort :
    engineRun
        ⟨fun _ => some [.video, .audio], fun _ => false, fun _ => []⟩
        ⟨"in.mp4", "out.mkv", []⟩ =
      (.error "Failed to create output format context",
        ⟨true, 0⟩) ∧
    engineRun
        ⟨fun _ => some [.video, .audio], fun _ => true, fun _ => []⟩
        ⟨"in.mp4", "out.mkv", []⟩ =
      (.ok ({ videoStreamIndex := 0, audioStreamIndex := 1 },
        [Event.flush]), ⟨true, 1⟩) :=
  ⟨rfl, rfl⟩

/-! ## C2: one job's open failure and the rest of the batch -/

/-- C2 counterexample: in a batch of two jobs where the first job's input
fails to open, the loop aborts immediately: only the first job is ever
reached, even though the second job would run fine on its own — refuting
"every remaining job in the batch still runs". -/
theorem runJobs_open_failure_cex :
    runJobs
        ⟨fun p => if p = "b.mp4" then some [.video] else none,
          fun _ => true, fun _ => []⟩
        [⟨"a.mp4", "o1", []⟩, ⟨"b.mp4", "o2", []⟩] =
      (.error "Failed to open input file: a.mp4", ["a.mp4"]) ∧
    (engineRun
        ⟨fun p => if p = "b.mp4" then some [.video] else none,
          fun _ => true, fun _ => []⟩
        ⟨"b.mp4", "o2", []⟩).1.isOk = true :=
  ⟨rfl, rfl⟩

theorem engineRun_open_failure (w : World) (job : VideoJob)
    (hbad : w.streams job.input = none) :
    engineRun w job =
      (.error ("Failed to open input file: " ++ job.input),
        ⟨false, 0⟩) := by
  unfold engineRun ffOpenInput
  rw [hbad]

/-- C2 (amended): a failure to open one job's input aborts that job *and
the entire rest of the batch*: the exception escapes `JobManager::run`
(there is no per-job handler), so jobs before the failing one have run,
the failing job is the last one reached, and jobs after it never
start. -/
theorem runJobs_open_failure_aborts_batch (w : World)
    (pre post : List VideoJob) (bad : VideoJob)
    (hpre : ∀ j ∈ pre, (engineRun w j).1.isOk = true)
    (hbad : w.streams bad.input = none) :
    ∃ e, runJobs w (pre ++ bad :: post) =
      (.error e, pre.map VideoJob.input ++ [bad.input]) := by
  induction pre with
  | nil =>
    refine ⟨"Failed to open input file: " ++ bad.input, ?_⟩
    have h1 := engineRun_open_failure w bad hbad
    simp [runJobs, h1]
  | cons j pre' ih =>
    have hj := hpre j (List.mem_cons_self j pre')
    obtain ⟨v, hv⟩ : ∃ v, (engineRun w j).1 = .ok v := by
      cases h : (engineRun w j).1 with
      | error e => rw [h] at hj; exact absurd hj (by simp [Except.isOk,
          Except.toBool])
      | ok v => exact ⟨v, rfl⟩
    obtain ⟨e, he⟩ := ih fun x hx =>
      hpre x (List.mem_cons_of_mem j hx)
    refine ⟨e, ?_⟩
    simp only [List.cons_append, runJobs, hv, List.append_eq, he,
      List.map_cons]

/-- C2 amended-claim witness: a healthy job before the failing one runs,
the failing job is reached last, the healthy job after it never runs. -/
theorem runJobs_open_failure_aborts_batch_witness :
    ∃ e, runJobs
        ⟨fun p => if p = "bad.mp4" then none else some [.video],
          fun _ => true, fun _ => []⟩
        [⟨"good.mp4", "o0", []⟩, ⟨"bad.mp4", "o1", []⟩,
         ⟨"never.mp4", "o2", []⟩] =
      (.error e, ["good.mp4", "bad.mp4"]) :=
  runJobs_open_failure_aborts_batch
    ⟨fun p => if p = "bad.mp4" then none else some [.video],
      fun _ => true, fun _ => []⟩
    [⟨"good.mp4", "o0", []⟩] [⟨"never.mp4", "o2", []⟩]
    ⟨"bad.mp4", "o1", []⟩
    (by intro j hj; rcases List.mem_singleton.mp hj with rfl; rfl)
    rfl

/-! ## C9: watermark region clipping -/

theorem applyOne_rows (blurAt inpaintAt : Img Pix → RectI → Nat → Nat → Pix)
    (img : Img Pix) (reg : WatermarkRegion) :
    (applyOne blurAt inpaintAt img reg).rows = img.rows := by
  simp only [applyOne, writeRegion]
  split_ifs <;> rfl

theorem applyOne_cols (blurAt inpaintAt : Img Pix → RectI → Nat → Nat → Pix)
    (img : Img Pix) (reg : WatermarkRegion) :
    (applyOne blurAt inpaintAt img reg).cols = img.cols := by
  simp only [applyOne, writeRegion]
  split_ifs <;> rfl

theorem clipRegion_congr (img img' : Img Pix) (reg : WatermarkRegion)
    (hr : img'.rows = img.rows) (hc : img'.cols = img.cols) :
    clipRegion img' reg = clipRegion img reg := by
  unfold clipRegion frameRect
  rw [hr, hc]

theorem applyOne_zero_area
    (blurAt inpaintAt : Img Pix → RectI → Nat → Nat → Pix)
    (img : Img Pix) (reg : WatermarkRegion)
    (h : (clipRegion img reg).area ≤ 0) :
    applyOne blurAt inpaintAt img reg = img := by
  unfold applyOne
  rw [if_pos h]

theorem applyOne_data_of_not_mem
    (blurAt inpaintAt : Img Pix → RectI → Nat → Nat → Pix)
    (img : Img Pix) (reg : WatermarkRegion) (r c : Nat)
    (h : (clipRegion img reg).memB r c = false) :
    (applyOne blurAt inpaintAt img reg).data r c = img.data r c := by
  simp only [applyOne, writeRegion]
  split_ifs <;> simp [h]

theorem applyRegions_data_of_not_mem
    (blurAt inpaintAt : Img Pix → RectI → Nat → Nat → Pix)
    (regions : List WatermarkRegion) (img : Img Pix) (r c : Nat)
    (h : ∀ reg ∈ regions, (clipRegion img reg).memB r c = false) :
    (applyRegions blurAt inpaintAt regions img).data r c =
      img.data r c := by
  induction regions generalizing img with
  | nil => rfl
  | cons reg rest ih =>
    have hstep : applyRegions blurAt inpaintAt (reg :: rest) img =
        applyRegions blurAt inpaintAt rest
          (applyOne blurAt inpaintAt img reg) := rfl
    rw [hstep]
    have hclip : ∀ reg' ∈ rest,
        (clipRegion (applyOne blurAt inpaintAt img reg) reg').memB r c =
          false := by
      intro reg' hm
      rw [clipRegion_congr img (applyOne blurAt inpaintAt img reg) reg'
        (applyOne_rows _ _ _ _) (applyOne_cols _ _ _ _)]
      exact h reg' (List.mem_cons_of_mem reg hm)
    rw [ih (applyOne blurAt inpaintAt img reg) hclip,
      applyOne_data_of_not_mem blurAt inpaintAt img reg r c
        (h reg (List.mem_cons_self reg rest))]

theorem clipRegion_subset_frame (img : Img Pix) (reg : WatermarkRegion)
    (r c : Nat) (h : (clipRegion img reg).memB r c = true) :
    r < img.rows ∧ c < img.cols := by
  unfold clipRegion RectI.inter frameRect at h
  by_cases hz : min (reg.x + reg.width) (0 + (img.cols : Int)) -
      max reg.x 0 ≤ 0 ∨
      min (reg.y + reg.height) (0 + (img.rows : Int)) -
      max reg.y 0 ≤ 0
  · rw [if_pos hz] at h
    simp [RectI.memB] at h
    omega
  · rw [if_neg hz] at h
    simp only [RectI.memB, Bool.and_eq_true, decide_eq_true_eq] at h
    constructor
    · have := h.2
      omega
    · have := h.1.1.2
      omega

/-- C9: `WatermarkRemoveOperation` applies each region's method only
inside the region clipped to the frame rectangle: an empty region list is
a no-op, a region whose clipped intersection has zero area is skipped
without error, pixels covered by no clipped region are untouched, every
clipped region lies inside the frame bounds, and pixels outside the
frame's bounds are never touched. -/
theorem watermark_clips_and_skips {Pix : Type}
    (blurAt inpaintAt : Img Pix → RectI → Nat → Nat → Pix)
    (regions : List WatermarkRegion) (img : Img Pix) :
    wmProcessFrame blurAt inpaintAt [] img = img ∧
    (∀ reg : WatermarkRegion, (clipRegion img reg).area ≤ 0 →
      applyOne blurAt inpaintAt img reg = img) ∧
    (∀ r c : Nat,
      (∀ reg ∈ regions, (clipRegion img reg).memB r c = false) →
      (applyRegions blurAt inpaintAt regions img).data r c =
        img.data r c) ∧
    (∀ reg : WatermarkRegion, ∀ r c : Nat,
      (clipRegion img reg).memB r c = true →
      r < img.rows ∧ c < img.cols) ∧
    (∀ r c : Nat, img.rows ≤ r ∨ img.cols ≤ c →
      (wmProcessFrame blurAt inpaintAt regions img).data r c =
        img.data r c) := by
  refine ⟨rfl, ?_, ?_, ?_, ?_⟩
  · intro reg h
    exact applyOne_zero_area blurAt inpaintAt img reg h
  · intro r c h
    exact applyRegions_data_of_not_mem blurAt inpaintAt regions img r c h
  · intro reg r c h
    exact clipRegion_subset_frame img reg r c h
  · intro r c hout
    unfold wmProcessFrame
    by_cases he : regions.isEmpty
    · rw [if_pos he]
    · rw [if_neg he]
      refine applyRegions_data_of_not_mem blurAt inpaintAt regions img
        r c fun reg hm => ?_
      cases hmem : (clipRegion img reg).memB r c with
      | false => rfl
      | true =>
        have := clipRegion_subset_frame img reg r c hmem
        omega

/-- C9 witness: on a 4×4 frame, an out-of-bounds region is clipped (its
clipped rectangle sits inside the frame), a fully outside region clips to
zero area and is skipped, untouched pixels keep their value, and pixels
outside the frame are never touched. -/
theorem watermark_clips_and_skips_witness :
    wmProcessFrame (fun _ _ _ _ => (0 : Nat)) (fun _ _ _ _ => 1) []
        ⟨4, 4, fun _ _ => 7⟩ = ⟨4, 4, fun _ _ => 7⟩ ∧
    applyOne (fun _ _ _ _ => (0 : Nat)) (fun _ _ _ _ => 1)
        ⟨4, 4, fun _ _ => 7⟩ ⟨10, 10, 5, 5, "inpaint"⟩ =
      ⟨4, 4, fun _ _ => 7⟩ ∧
    (applyRegions (fun _ _ _ _ => (0 : Nat)) (fun _ _ _ _ => 1)
        [⟨-2, -2, 3, 3, "blur"⟩] ⟨4, 4, fun _ _ => 7⟩).data 3 3 = 7 ∧
    (0 < 4 ∧ 0 < 4) ∧
    (wmProcessFrame (fun _ _ _ _ => (0 : Nat)) (fun _ _ _ _ => 1)
        [⟨-2, -2, 3, 3, "blur"⟩] ⟨4, 4, fun _ _ => 7⟩).data 5 0 = 7 := by
  refine ⟨?_, ?_, ?_, ?_, ?_⟩
  · exact (watermark_clips_and_skips (fun _ _ _ _ => (0 : Nat))
      (fun _ _ _ _ => 1) [] ⟨4, 4, fun _ _ => 7⟩).1
  · exact (watermark_clips_and_skips (fun _ _ _ _ => (0 : Nat))
      (fun _ _ _ _ => 1) [] ⟨4, 4, fun _ _ => 7⟩).2.1
      ⟨10, 10, 5, 5, "inpaint"⟩ (by decide)
  · exact (watermark_clips_and_skips (fun _ _ _ _ => (0 : Nat))
      (fun _ _ _ _ => 1) [⟨-2, -2, 3, 3, "blur"⟩]
      ⟨4, 4, fun _ _ => 7⟩).2.2.1 3 3 (by decide)
  · exact (watermark_clips_and_skips (fun _ _ _ _ => (0 : Nat))
      (fun _ _ _ _ => 1) [⟨-2, -2, 3, 3, "blur"⟩]
      ⟨4, 4, fun _ _ => 7⟩).2.2.2.1 ⟨-2, -2, 3, 3, "blur"⟩ 0 0
      (by decide)
  · exact (watermark_clips_and_skips (fun _ _ _ _ => (0 : Nat))
      (fun _ _ _ _ => 1) [⟨-2, -2, 3, 3, "blur"⟩]
      ⟨4, 4, fun _ _ => 7⟩).2.2.2.2 5 0 (Or.inl (by decide))

end ContentFabric
